import Mathlib

/-!
Shallow embedding of the distributed ETL preprocessing pipeline exercised by
`nvtabular_dask_demo/dask_cudf_example.ipynb`.

The notebook sequences external dataframe calls; the cells embedded here are:

* the Fill NA/NaN cell: `median = gddf_read[col].quantile(0.5).compute()`,
  `if gddf_read[col].dtype in ('int64','int32'): median = int(median)`,
  `gddf_read[col] = gddf_read[col].fillna(median)`;
* the Normalize cell: `means = gdf_cont.mean().compute()`,
  `stds = gdf_cont.std().compute()`, then per column
  `gddf_read[name] = (gddf_read[name]-means[i])/(1e-7+stds[i])` followed by
  `gddf_read[name] = gddf_read[name].astype('float32')`;
* the shuffle cells: `_assign_rand(df) = df.assign(sort_ind=np.random.permutation(len(df)))`
  applied through `map_partitions`, then `dd.shuffle.set_index(gddf_read_new, 'sort_ind')`;
* the output cells: `if os.path.isdir(path): shutil.rmtree(path)` followed by `to_parquet`.

Cell values are modelled as exact rationals; machine-float effects are covered
by the tolerance language of the properties.  Partition-local randomness
(`np.random.permutation`) is made explicit as a drawn permutation parameter.
-/

namespace NB

/-- Scalar dtypes tracked by the embedded pipeline. -/
inductive DType
  | int64
  | int32
  | float64
  | float32
  deriving DecidableEq

/-- Whether a dtype is one of the integer dtypes the fill cell special-cases
(`dtype in ('int64','int32')`). -/
def DType.isInt : DType → Bool
  | int64 => true
  | int32 => true
  | _ => false

/-- One column slice of one partition after nulls are gone: a dtype tag plus
the cell values in row order. -/
structure Column where
  dtype : DType
  vals : List ℚ
  deriving DecidableEq

/-- One nullable column slice of one partition (input of the fill step). -/
structure NColumn where
  dtype : DType
  vals : List (Option ℚ)
  deriving DecidableEq

/-! ### Statistics -/

/-- Mean of a list of cell values (`.mean()`). -/
def mean (xs : List ℚ) : ℚ := xs.sum / xs.length

/-- Sum of squares of a list of cell values. -/
def sumSq (xs : List ℚ) : ℚ := (xs.map (fun x => x * x)).sum

/-- Population variance, the formula of the spec's StatisticsCollector:
`variance = sum_sq/count - mean^2`. -/
def varPop (xs : List ℚ) : ℚ := sumSq xs / xs.length - mean xs ^ 2

/-- Sample variance with `ddof = 1`, the documented default of the external
dataframe `.std()` the Normalize cell calls. -/
def varSamp (xs : List ℚ) : ℚ :=
  (sumSq xs - xs.length * mean xs ^ 2) / ((xs.length : ℚ) - 1)

/-- Modelled from the spec: the StatisticsCollector's per-partition partial
result, "running count/sum/sum-of-squares per partition". -/
structure Agg where
  count : ℕ
  total : ℚ
  totalSq : ℚ
  deriving DecidableEq

/-- Aggregate of one partition's values. -/
def aggOf (xs : List ℚ) : Agg := ⟨xs.length, xs.sum, sumSq xs⟩

/-- Modelled from the spec: pairwise combination of partial aggregates,
"combined at the end". -/
def Agg.combine (a b : Agg) : Agg :=
  ⟨a.count + b.count, a.total + b.total, a.totalSq + b.totalSq⟩

/-- The neutral aggregate of no rows. -/
def emptyAgg : Agg := ⟨0, 0, 0⟩

/-- Modelled from the spec: collect the global aggregate of a partitioned
column by combining per-partition aggregates. -/
def collectAgg (parts : List (List ℚ)) : Agg :=
  (parts.map aggOf).foldr Agg.combine emptyAgg

/-- Mean derived from a combined aggregate (`mean = sum/count`). -/
def Agg.mean (a : Agg) : ℚ := a.total / a.count

/-- Population variance derived from a combined aggregate
(`variance = sum_sq/count - mean^2`). -/
def Agg.varPop (a : Agg) : ℚ := a.totalSq / a.count - a.mean ^ 2

/-- Sample variance (`ddof = 1`) derived from a combined aggregate. -/
def Agg.varSamp (a : Agg) : ℚ :=
  (a.totalSq - a.count * a.mean ^ 2) / ((a.count : ℚ) - 1)

/-! ### Normalize -/

/-- Per-row normalize, from the Normalize cell:
`(gddf_read[name]-means[i])/(1e-7+stds[i])`. -/
def normalize (m s x : ℚ) : ℚ := (x - m) / (1e-7 + s)

/-- Normalize one column slice and apply the cell's `astype('float32')` cast. -/
def normalizeColumn (m s : ℚ) (c : Column) : Column :=
  { dtype := DType.float32, vals := c.vals.map (normalize m s) }

/-- Global mean of a column stored as per-partition slices
(`gdf_cont.mean().compute()` runs over the whole dataframe). -/
def globalMean (ps : List Column) : ℚ := mean ((ps.map Column.vals).flatten)

/-- The Normalize cell over all partitions of a column: the global mean is
computed once, the global std `s` is the single value `.std().compute()`
returned, and the same per-row function is mapped over every partition. -/
def normalizeStep (ps : List Column) (s : ℚ) : List Column :=
  ps.map (normalizeColumn (globalMean ps) s)

/-! ### Fill missing -/

/-- Truncation toward zero, the semantics of Python `int()` on a number. -/
def pythonInt (q : ℚ) : ℤ := if 0 ≤ q then ⌊q⌋ else ⌈q⌉

/-- The fill value the Fill NA/NaN cell actually uses: the globally computed
median, truncated by `median = int(median)` when the column dtype is
`int64`/`int32`. -/
def fillValue (d : DType) (median : ℚ) : ℚ :=
  if d.isInt then ((pythonInt median : ℤ) : ℚ) else median

/-- Modelled from the spec: the dtype promotion rule of the external `fillna`,
"integer columns with fill values become float if the fill value is
non-integral". -/
def fillDType (d : DType) (fv : ℚ) : DType :=
  if d.isInt && !fv.isInt then DType.float64 else d

/-- Per-cell `fillna`: replace a null by the fill value, keep any present
value unchanged. -/
def fillCell (fv : ℚ) : Option ℚ → ℚ
  | none => fv
  | some x => x

/-- The Fill NA/NaN cell on one column slice, given the globally computed
median of the column. -/
def fillStep (median : ℚ) (c : NColumn) : Column :=
  { dtype := fillDType c.dtype (fillValue c.dtype median)
    vals := c.vals.map (fillCell (fillValue c.dtype median)) }

/-- The fill transform as the spec words it (for comparison with `fillStep`):
the fill value is the median itself, with the same promotion rule. -/
def fillStepSpec (median : ℚ) (c : NColumn) : Column :=
  { dtype := fillDType c.dtype median
    vals := c.vals.map (fillCell median) }

/-! ### Shuffle -/

/-- The `_assign_rand` cell with the drawn permutation made explicit:
attach a `sort_ind` tag to each row of one partition. -/
def assignRand (perm : List ℕ) (p : List α) : List (α × ℕ) := p.zip perm

/-- `map_partitions(_assign_rand)`: one independent draw per partition. -/
def assignRandAll (draws : List (List ℕ)) (ds : List (List α)) :
    List (List (α × ℕ)) :=
  List.zipWith assignRand draws ds

/-- Split a list into chunks at division sizes; trailing rows form the final
chunk, so no row is dropped. -/
def chunks : List ℕ → List α → List (List α)
  | [], l => [l]
  | n :: ns, l => l.take n :: chunks ns (l.drop n)

/-- Tag-column comparison used to redistribute rows. -/
def tagLe (a b : α × ℕ) : Prop := a.2 ≤ b.2

instance : DecidableRel (tagLe (α := α)) := fun a b => Nat.decLe a.2 b.2

/-- Modelled from the spec (ShuffleStage contract) for the external
`dd.shuffle.set_index(..., 'sort_ind')`: gather all rows, order them by the
tag column, and split the result at the output divisions. -/
def shuffleSetIndex (sizes : List ℕ) (tagged : List (List (α × ℕ))) :
    List (List (α × ℕ)) :=
  chunks sizes (List.insertionSort tagLe tagged.flatten)

/-- One downstream read of the lazily shuffled collection: because
`np.random.permutation` runs inside `map_partitions` with no fixed seed and
the tags are never persisted, every read recomputes the assignment from a
fresh draw before redistributing. -/
def lazyShuffleRead (sizes : List ℕ) (draws : List (List ℕ))
    (ds : List (List α)) : List (List (α × ℕ)) :=
  shuffleSetIndex sizes (assignRandAll draws ds)

/-- The rows a reader observes in each output partition. -/
def rowsOf (out : List (List (α × ℕ))) : List (List α) :=
  out.map (List.map Prod.fst)

/-- A valid draw for a dataset: `np.random.permutation(len(df))` returns a
permutation of `0..len(df)-1`, independently for each partition. -/
def validDraws (draws : List (List ℕ)) (ds : List (List α)) : Prop :=
  List.Forall₂ (fun d p => List.Perm d (List.range p.length)) draws ds

/-! ### Writer -/

/-- Abstract state of the output location: whether the output directory
currently exists. -/
structure FS where
  outputExists : Bool
  deriving DecidableEq

/-- Errors of the Writer contract. -/
inductive WriteError
  | outputExists
  deriving DecidableEq

/-- The notebook's explicit clean, from the clean-output-path cell and the
write-shuffled-dataset cell: `if os.path.isdir(path): shutil.rmtree(path)`. -/
def cleanOutput (fs : FS) : FS :=
  if fs.outputExists then { outputExists := false } else fs

/-- Modelled from the spec: the Writer contract, "Must create the output
directory fresh (fails with OutputExistsError unless caller has explicitly
requested overwrite/clean)". -/
def writerWrite (fs : FS) (overwrite : Bool) : Except WriteError FS :=
  if fs.outputExists && !overwrite then Except.error WriteError.outputExists
  else Except.ok { outputExists := true }

/-- The write-shuffled-dataset cell: the caller explicitly cleans the output
path, then writes into the now-fresh directory. -/
def writeShuffledCell (fs : FS) : Except WriteError FS :=
  writerWrite (cleanOutput fs) false

/-! ### Concrete scenario data -/

/-- The end-to-end scenario input: two partitions of 100 rows, column `x`
holding `0..99` and `100..199`. -/
def scenarioParts : List (List ℚ) :=
  [(List.range 100).map (fun i => (i : ℚ)),
   (List.range 100).map (fun i => (100 + i : ℚ))]

/-- The scenario column reassembled across its two partitions. -/
def scenarioX : List ℚ := scenarioParts.flatten

/-- A two-row, one-partition dataset used to exhibit the effect of the
unseeded lazy random assignment. -/
def dsTwoRows : List (List ℕ) := [[10, 20]]

/-- An integer column with one null, whose globally computed median
(`quantile(0.5)` of the values `1` and `4`) is the non-integral `5/2`. -/
def intColWithNull : NColumn := ⟨DType.int64, [none, some 1, some 4]⟩

/-! ## Helper lemmas -/

/-- Aggregates split over list concatenation. -/
theorem aggOf_append (xs ys : List ℚ) :
    aggOf (xs ++ ys) = (aggOf xs).combine (aggOf ys) := by
  simp [aggOf, Agg.combine, sumSq]

/-- Combining with the empty aggregate is the identity. -/
theorem combine_emptyAgg (a : Agg) : a.combine emptyAgg = a := by
  simp [Agg.combine, emptyAgg]

/-- Combining per-partition aggregates equals aggregating the reassembled
column: the partition boundaries do not matter. -/
theorem collectAgg_eq (parts : List (List ℚ)) :
    collectAgg parts = aggOf parts.flatten := by
  induction parts with
  | nil => simp [collectAgg, aggOf, emptyAgg, sumSq]
  | cons p ps ih =>
      simp only [collectAgg, List.map_cons, List.foldr_cons, List.flatten_cons]
      rw [show (List.foldr Agg.combine emptyAgg (ps.map aggOf)) = collectAgg ps from rfl,
        ih, aggOf_append]

/-- Derived mean of an aggregate agrees with the direct mean. -/
theorem aggOf_mean (xs : List ℚ) : (aggOf xs).mean = mean xs := rfl

/-- Derived population variance of an aggregate agrees with the direct one. -/
theorem aggOf_varPop (xs : List ℚ) : (aggOf xs).varPop = varPop xs := by
  simp [aggOf, Agg.varPop, varPop, Agg.mean, mean]

/-- Derived sample variance of an aggregate agrees with the direct one. -/
theorem aggOf_varSamp (xs : List ℚ) : (aggOf xs).varSamp = varSamp xs := by
  simp [aggOf, Agg.varSamp, varSamp, Agg.mean, mean]

/-- Chunking at divisions never loses or duplicates a row. -/
theorem flatten_chunks (sizes : List ℕ) (l : List α) :
    (chunks sizes l).flatten = l := by
  induction sizes generalizing l with
  | nil => simp [chunks]
  | cons n ns ih => simp [chunks, ih]

/-- Dropping the tags of a tagged dataset recovers the dataset, partition by
partition, whenever each draw has as many tags as its partition has rows. -/
theorem rows_assignRandAll {draws : List (List ℕ)} {ds : List (List α)}
    (h : List.Forall₂ (fun d p => d.length = p.length) draws ds) :
    (assignRandAll draws ds).map (List.map Prod.fst) = ds := by
  induction h with
  | nil => simp [assignRandAll]
  | @cons d p draws2 ds2 hdp htail ih =>
      simp only [assignRandAll, List.zipWith_cons_cons, List.map_cons]
      rw [show List.zipWith assignRand draws2 ds2 = assignRandAll draws2 ds2 from rfl, ih]
      rw [show assignRand d p = p.zip d from rfl, List.map_fst_zip p d hdp.symm.le]

/-- Reading an entry of both lists of a pointwise-related pair at the same
index yields related entries. -/
theorem forall2_getElem {R : α → β → Prop} {l1 : List α} {l2 : List β}
    (h : List.Forall₂ R l1 l2) :
    ∀ {i : ℕ} {a : α} {b : β}, l1[i]? = some a → l2[i]? = some b → R a b := by
  induction h with
  | nil => intro i a b h1 h2; simp at h1
  | @cons x y l1t l2t hxy htail ih =>
      intro i a b h1 h2
      cases i with
      | zero =>
          simp only [List.getElem?_cons_zero, Option.some.injEq] at h1 h2
          rw [← h1, ← h2]; exact hxy
      | succ n =>
          simp only [List.getElem?_cons_succ] at h1 h2
          exact ih h1 h2

/-- The tag multiset a dataset's tagged form carries: each tag value occurs at
most once per partition, hence at most once per partition overall. -/
theorem count_tags_le {draws : List (List ℕ)} {ds : List (List α)}
    (hv : validDraws draws ds) (t : ℕ) :
    (((assignRandAll draws ds).map (List.map Prod.snd)).flatten).count t ≤ ds.length := by
  induction hv with
  | nil => simp [assignRandAll]
  | @cons d p draws2 ds2 hdp htail ih =>
      simp only [assignRandAll, List.zipWith_cons_cons, List.map_cons, List.flatten_cons,
        List.count_append]
      have hlen : d.length = p.length := by
        rw [hdp.length_eq, List.length_range]
      have hmap : (assignRand d p).map Prod.snd = d := by
        rw [show assignRand d p = p.zip d from rfl, List.map_snd_zip p d hlen.le]
      have hone : d.count t ≤ 1 := by
        rw [hdp.count_eq t]
        by_cases ht : t < p.length
        · rw [List.count_eq_one_of_mem (List.nodup_range _) (List.mem_range.mpr ht)]
        · rw [List.count_eq_zero_of_not_mem (fun hmem => ht (List.mem_range.mp hmem))]
          exact Nat.zero_le 1
      rw [hmap, show List.zipWith assignRand draws2 ds2 = assignRandAll draws2 ds2 from rfl]
      have := ih
      simp only [List.length_cons]
      omega

set_option maxRecDepth 8000 in
/-- The scenario column's global mean evaluates to `199/2 = 99.5`. -/
theorem mean_scenarioX : mean scenarioX = 199 / 2 := by
  simp [mean, scenarioX, scenarioParts, List.range_succ]
  norm_num

set_option maxRecDepth 8000 in
/-- The scenario column's sample variance (`ddof = 1`, the `.std()` default)
evaluates to exactly `3350`, so the std the code uses is `√3350 ≈ 57.879`. -/
theorem varSamp_scenarioX : varSamp scenarioX = 3350 := by
  simp [varSamp, sumSq, mean, scenarioX, scenarioParts, List.range_succ]
  norm_num

set_option maxRecDepth 8000 in
/-- The scenario column's population variance (the spec's formula
`sum_sq/count - mean^2`) evaluates to `13333/4 = 3333.25`, whose square root
`≈ 57.73` is the std the claim's numbers assume. -/
theorem varPop_scenarioX : varPop scenarioX = 13333 / 4 := by
  simp [varPop, sumSq, mean, scenarioX, scenarioParts, List.range_succ]
  norm_num

/-! ## Claim theorems -/

/-- C1: with precomputed global statistics, the normalize transform maps each
cell `x` of each partition to `(x - mean) / (std + ε)` with `ε = 1e-7`, the
mean computed once over the whole dataset and the single std value `s` shared
by every partition; applying it to a partition is a pure per-row function (the
output cell at any position is determined by the input cell at that position
and the global statistics alone). -/
theorem c1_normalize_pure_per_row (ps : List Column) (s : ℚ) (i j : ℕ)
    (c : Column) (x : ℚ) (hc : ps[i]? = some c) (hx : c.vals[j]? = some x) :
    ∃ c2, (normalizeStep ps s)[i]? = some c2 ∧
      c2.vals[j]? = some ((x - globalMean ps) / (s + 1e-7)) := by
  refine ⟨normalizeColumn (globalMean ps) s c, ?_, ?_⟩
  · simp [normalizeStep, List.getElem?_map, hc]
  · have h3 : normalize (globalMean ps) s x = (x - globalMean ps) / (s + 1e-7) := by
      unfold normalize
      rw [add_comm (1e-7 : ℚ) s]
    simp [normalizeColumn, List.getElem?_map, hx, h3]

theorem c1_normalize_pure_per_row_witness :
    (([⟨DType.float64, [1, 3]⟩] : List Column)[0]? = some ⟨DType.float64, [1, 3]⟩) ∧
    ((⟨DType.float64, [1, 3]⟩ : Column).vals[1]? = some 3) ∧
    (∃ c2, (normalizeStep [⟨DType.float64, [1, 3]⟩] 2)[0]? = some c2 ∧
      c2.vals[1]? = some ((3 - globalMean [⟨DType.float64, [1, 3]⟩]) / (2 + 1e-7))) :=
  ⟨rfl, rfl, c1_normalize_pure_per_row [⟨DType.float64, [1, 3]⟩] 2 0 1 _ 3 rfl rfl⟩

/-- C5: the mean and the variance (population form as in the spec's formula,
and sample form as the dataframe `.std()` computes it) obtained by combining
per-partition count/sum/sum-of-squares aggregates of any `k ≥ 2`-partition
split equal the single-partition results exactly — in particular the standard
deviations agree — and the combination is associative and commutative, so the
result is independent of partition count and order. -/
theorem c5_partition_invariance (P : List (List ℚ)) (_hk : 2 ≤ P.length) :
    (collectAgg P).mean = (collectAgg [P.flatten]).mean ∧
    (collectAgg P).varPop = (collectAgg [P.flatten]).varPop ∧
    (collectAgg P).varSamp = (collectAgg [P.flatten]).varSamp ∧
    (collectAgg P).mean = mean P.flatten ∧
    (collectAgg P).varPop = varPop P.flatten ∧
    (collectAgg P).varSamp = varSamp P.flatten ∧
    (∀ a b c : Agg, (a.combine b).combine c = a.combine (b.combine c)) ∧
    (∀ a b : Agg, a.combine b = b.combine a) := by
  have hsingle : collectAgg [P.flatten] = aggOf P.flatten := by
    simp [collectAgg, combine_emptyAgg]
  rw [collectAgg_eq, hsingle]
  refine ⟨rfl, rfl, rfl, aggOf_mean _, aggOf_varPop _, aggOf_varSamp _, ?_, ?_⟩
  · intro a b c
    simp [Agg.combine, add_assoc]
  · intro a b
    simp [Agg.combine, Nat.add_comm, add_comm]

theorem c5_partition_invariance_witness :
    2 ≤ ([[1, 2], [3]] : List (List ℚ)).length ∧
    ((collectAgg [[1, 2], [3]]).mean = (collectAgg [([[1, 2], [3]] : List (List ℚ)).flatten]).mean ∧
    (collectAgg [[1, 2], [3]]).varPop = (collectAgg [([[1, 2], [3]] : List (List ℚ)).flatten]).varPop ∧
    (collectAgg [[1, 2], [3]]).varSamp = (collectAgg [([[1, 2], [3]] : List (List ℚ)).flatten]).varSamp ∧
    (collectAgg [[1, 2], [3]]).mean = mean ([[1, 2], [3]] : List (List ℚ)).flatten ∧
    (collectAgg [[1, 2], [3]]).varPop = varPop ([[1, 2], [3]] : List (List ℚ)).flatten ∧
    (collectAgg [[1, 2], [3]]).varSamp = varSamp ([[1, 2], [3]] : List (List ℚ)).flatten ∧
    (∀ a b c : Agg, (a.combine b).combine c = a.combine (b.combine c)) ∧
    (∀ a b : Agg, a.combine b = b.combine a)) :=
  ⟨by simp, c5_partition_invariance [[1, 2], [3]] (by simp)⟩

/-- C6: scaling a normalized value back by `(std + ε)` and adding the mean
recovers the original value; over exact rationals the round trip is an
identity (hence within any floating-point tolerance), for every nonnegative
std. -/
theorem c6_normalize_round_trip (m s x : ℚ) (hs : 0 ≤ s) :
    normalize m s x * (s + 1e-7) + m = x := by
  have heps : (0 : ℚ) < 1e-7 := by norm_num
  have h : (0 : ℚ) < 1e-7 + s := by linarith
  rw [normalize, add_comm s (1e-7 : ℚ), div_mul_cancel₀ _ (ne_of_gt h)]
  ring

theorem c6_normalize_round_trip_witness :
    (0 : ℚ) ≤ 0 ∧ normalize 1 0 5 * (0 + 1e-7) + 1 = 5 :=
  ⟨le_refl 0, c6_normalize_round_trip 1 0 5 (le_refl 0)⟩

/-- C9: the normalize step casts every normalized column to float32
(`astype('float32')`), so the output dtype is float32 regardless of the input
dtype and identical across all partitions. -/
theorem c9_normalize_dtype_float32 (m s : ℚ) (c other : Column) :
    (normalizeColumn m s c).dtype = DType.float32 ∧
    (normalizeColumn m s c).dtype = (normalizeColumn m s other).dtype :=
  ⟨rfl, rfl⟩

/-- C7: the multiset of rows coming out of the shuffle stage equals the
multiset of input rows — no row lost, no row duplicated — for every dataset,
every per-partition tag draw of matching length, and any output division
sizes (hence any input and output partition counts). -/
theorem c7_shuffle_multiset_preserved {α : Type} (ds : List (List α))
    (draws : List (List ℕ)) (sizes : List ℕ)
    (h : List.Forall₂ (fun d p => d.length = p.length) draws ds) :
    List.Perm ((rowsOf (lazyShuffleRead sizes draws ds)).flatten) ds.flatten := by
  unfold lazyShuffleRead shuffleSetIndex rowsOf
  rw [← List.map_flatten, flatten_chunks]
  have h1 : List.Perm
      ((List.insertionSort tagLe ((assignRandAll draws ds).flatten)).map Prod.fst)
      (((assignRandAll draws ds).flatten).map Prod.fst) :=
    (List.perm_insertionSort tagLe ((assignRandAll draws ds).flatten)).map Prod.fst
  rw [List.map_flatten, rows_assignRandAll h] at h1
  exact h1

theorem c7_shuffle_multiset_preserved_witness :
    List.Forall₂ (fun (d : List ℕ) (p : List ℕ) => d.length = p.length)
      [[1, 0], [0]] [[1, 2], [3]] ∧
    List.Perm ((rowsOf (lazyShuffleRead [2] [[1, 0], [0]] [[1, 2], [3]])).flatten)
      ([[1, 2], [3]] : List (List ℕ)).flatten :=
  ⟨List.Forall₂.cons rfl (List.Forall₂.cons rfl List.Forall₂.nil),
    c7_shuffle_multiset_preserved [[1, 2], [3]] [[1, 0], [0]] [2]
      (List.Forall₂.cons rfl (List.Forall₂.cons rfl List.Forall₂.nil))⟩

/-- C2 (failing input): the random tag is computed lazily inside
`map_partitions` from an unseeded generator and is never persisted before
`set_index` redistributes, so two downstream reads of the same shuffled
dataset may evaluate the assignment with different draws; on the two-row
dataset `[[10, 20]]`, the two valid draws `[0, 1]` and `[1, 0]` make the two
reads observe different rows in the output partitions, contradicting the
claim that the assignment is fixed before redistribution so that reading
twice yields equal results. -/
theorem c2_lazy_reads_differ :
    validDraws [[0, 1]] dsTwoRows ∧ validDraws [[1, 0]] dsTwoRows ∧
    rowsOf (lazyShuffleRead [1] [[0, 1]] dsTwoRows) ≠
      rowsOf (lazyShuffleRead [1] [[1, 0]] dsTwoRows) := by
  refine ⟨List.Forall₂.cons (by decide) List.Forall₂.nil,
    List.Forall₂.cons (by decide) List.Forall₂.nil, ?_⟩
  decide

/-- C10: the tag column attached by `_assign_rand` is, per partition, a
permutation of `0..len(partition)-1` drawn independently per partition: inside
a partition every tag value below the partition length occurs exactly once
(and larger values never occur), while globally a tag value can recur — its
total count across `k` partitions is only bounded by `k`, so tags are not
globally unique. -/
theorem c10_tags_per_partition {α : Type} (draws : List (List ℕ))
    (ds : List (List α)) (hv : validDraws draws ds) :
    (∀ (i : ℕ) (d : List ℕ) (p : List α), draws[i]? = some d → ds[i]? = some p → ∀ t : ℕ,
        ((assignRand d p).map Prod.snd).count t = if t < p.length then 1 else 0) ∧
    (∀ t : ℕ,
      (((assignRandAll draws ds).map (List.map Prod.snd)).flatten).count t ≤ ds.length) := by
  refine ⟨?_, fun t => count_tags_le hv t⟩
  intro i d p hd hp t
  have hperm : List.Perm d (List.range p.length) := forall2_getElem hv hd hp
  have hlen : d.length = p.length := by
    rw [hperm.length_eq, List.length_range]
  rw [show assignRand d p = p.zip d from rfl, List.map_snd_zip p d hlen.le, hperm.count_eq t]
  by_cases ht : t < p.length
  · rw [if_pos ht]
    exact List.count_eq_one_of_mem (List.nodup_range _) (List.mem_range.mpr ht)
  · rw [if_neg ht]
    exact List.count_eq_zero_of_not_mem (fun hmem => ht (List.mem_range.mp hmem))

theorem c10_tags_per_partition_witness :
    validDraws [[1, 0], [0]] ([[5, 6], [7]] : List (List ℕ)) ∧
    ((∀ (i : ℕ) (d : List ℕ) (p : List ℕ), ([[1, 0], [0]] : List (List ℕ))[i]? = some d →
        ([[5, 6], [7]] : List (List ℕ))[i]? = some p → ∀ t : ℕ,
        ((assignRand d p).map Prod.snd).count t = if t < p.length then 1 else 0) ∧
    (∀ t : ℕ,
      (((assignRandAll [[1, 0], [0]] [[5, 6], [7]]).map
        (List.map Prod.snd)).flatten).count t ≤ ([[5, 6], [7]] : List (List ℕ)).length)) :=
  ⟨List.Forall₂.cons (by decide) (List.Forall₂.cons (by decide) List.Forall₂.nil),
    c10_tags_per_partition [[1, 0], [0]] [[5, 6], [7]]
      (List.Forall₂.cons (by decide) (List.Forall₂.cons (by decide) List.Forall₂.nil))⟩

/-- C3 (counterexample): on an `int64` column containing a null, when the
globally computed median is the non-integral `5/2` the cell truncates it to
the integer `2` (`median = int(median)`) before filling, so the filled cell
holds `2` — not the median — and the column keeps dtype `int64` instead of
becoming float as the claim's type policy states: the code's fill differs
from the claim's fill at this concrete input. -/
theorem c3_fill_truncates_counterexample :
    fillStep (5/2) intColWithNull ≠ fillStepSpec (5/2) intColWithNull ∧
    (fillStep (5/2) intColWithNull).dtype = DType.int64 ∧
    (fillStep (5/2) intColWithNull).vals = [2, 1, 4] ∧
    (fillStepSpec (5/2) intColWithNull).dtype = DType.float64 ∧
    (fillStepSpec (5/2) intColWithNull).vals = [5/2, 1, 4] := by
  have hfv : fillValue DType.int64 (5/2) = 2 := by
    norm_num [fillValue, pythonInt, DType.isInt]
  have hnotint : (5/2 : ℚ).isInt = false := by
    norm_num [Rat.isInt]
  have hcode : fillStep (5/2) intColWithNull = ⟨DType.int64, [2, 1, 4]⟩ := by
    simp [fillStep, intColWithNull, hfv, fillDType, fillCell, DType.isInt, Rat.isInt]
  have hspec : fillStepSpec (5/2) intColWithNull = ⟨DType.float64, [5/2, 1, 4]⟩ := by
    simp [fillStepSpec, intColWithNull, fillDType, fillCell, DType.isInt, hnotint]
  refine ⟨?_, by rw [hcode], by rw [hcode], by rw [hspec], by rw [hspec]⟩
  rw [hcode, hspec]
  simp

/-- C3 (amended): the fill transform replaces a cell by the fill value exactly
when the cell is null and leaves it unchanged otherwise, where the fill value
is the global median truncated toward zero to an integer for `int64`/`int32`
columns (and the median itself otherwise); consequently an integer column's
fill value is always integral, its dtype never changes, and two column slices
of the same dtype receive the same fill value and the same output dtype. -/
theorem c3_fill_missing_amended (median : ℚ) (c other : NColumn) (j : ℕ)
    (v : Option ℚ) (hv : c.vals[j]? = some v) :
    ((fillStep median c).vals[j]? = some (fillCell (fillValue c.dtype median) v)) ∧
    (v = none → (fillStep median c).vals[j]? = some (fillValue c.dtype median)) ∧
    (∀ x : ℚ, v = some x → (fillStep median c).vals[j]? = some x) ∧
    (c.dtype.isInt = true →
      (fillValue c.dtype median).isInt = true ∧ (fillStep median c).dtype = c.dtype) ∧
    (c.dtype = other.dtype →
      fillValue c.dtype median = fillValue other.dtype median ∧
      (fillStep median c).dtype = (fillStep median other).dtype) := by
  have hget : (fillStep median c).vals[j]? = some (fillCell (fillValue c.dtype median) v) := by
    simp [fillStep, List.getElem?_map, hv]
  refine ⟨hget, ?_, ?_, ?_, ?_⟩
  · intro hnone
    rw [hget, hnone]
    rfl
  · intro x hx
    rw [hget, hx]
    rfl
  · intro hint
    have hisint : (fillValue c.dtype median).isInt = true := by
      simp [fillValue, hint, Rat.isInt, Rat.den_intCast]
    refine ⟨hisint, ?_⟩
    simp [fillStep, fillDType, hisint]
  · intro hdt
    rw [fillValue, fillValue, hdt]
    exact ⟨rfl, by simp [fillStep, fillDType, fillValue, hdt]⟩

theorem c3_fill_missing_amended_witness :
    ((⟨DType.int64, [none, some 7]⟩ : NColumn).vals[0]? = some none) ∧
    (((fillStep (5/2) ⟨DType.int64, [none, some 7]⟩).vals[0]? =
        some (fillCell (fillValue DType.int64 (5/2)) none)) ∧
    ((none : Option ℚ) = none → (fillStep (5/2) ⟨DType.int64, [none, some 7]⟩).vals[0]? =
        some (fillValue DType.int64 (5/2))) ∧
    (∀ x : ℚ, (none : Option ℚ) = some x →
      (fillStep (5/2) ⟨DType.int64, [none, some 7]⟩).vals[0]? = some x) ∧
    (DType.isInt DType.int64 = true →
      (fillValue DType.int64 (5/2)).isInt = true ∧
      (fillStep (5/2) ⟨DType.int64, [none, some 7]⟩).dtype = DType.int64) ∧
    (DType.int64 = DType.int64 →
      fillValue DType.int64 (5/2) = fillValue DType.int64 (5/2) ∧
      (fillStep (5/2) ⟨DType.int64, [none, some 7]⟩).dtype =
        (fillStep (5/2) ⟨DType.int64, [none, some 7]⟩).dtype)) :=
  ⟨rfl, c3_fill_missing_amended (5/2) ⟨DType.int64, [none, some 7]⟩
    ⟨DType.int64, [none, some 7]⟩ 0 none rfl⟩

/-- C4: the Writer fails with `OutputExistsError` on every invocation whose
output directory already exists unless the caller explicitly requested
overwrite/clean — it never silently replaces existing output — and the
notebook's shuffled-dataset write cell conforms by explicitly cleaning
(`shutil.rmtree`) before writing, after which the write succeeds. -/
theorem c4_writer_output_exists (fs : FS) (h : fs.outputExists = true) :
    writerWrite fs false = Except.error WriteError.outputExists ∧
    (∀ ow : Bool, writerWrite fs ow ≠ Except.error WriteError.outputExists → ow = true) ∧
    (writeShuffledCell fs).isOk = true := by
  refine ⟨by simp [writerWrite, h], ?_,
    by simp [writeShuffledCell, cleanOutput, writerWrite, h, Except.isOk, Except.toBool]⟩
  intro ow how
  cases ow with
  | true => rfl
  | false => exact absurd (by simp [writerWrite, h]) how

theorem c4_writer_output_exists_witness :
    (FS.mk true).outputExists = true ∧
    (writerWrite ⟨true⟩ false = Except.error WriteError.outputExists ∧
    (∀ ow : Bool, writerWrite ⟨true⟩ ow ≠ Except.error WriteError.outputExists → ow = true) ∧
    (writeShuffledCell ⟨true⟩).isOk = true) :=
  ⟨rfl, c4_writer_output_exists ⟨true⟩ rfl⟩

/-- C8 (counterexample): on the two-partition scenario (x = 0..99 and
100..199) the code's global mean is exactly `199/2 = 99.5`, but its std is the
sample standard deviation `√(varSamp) = √3350 ≈ 57.879` (the dataframe
`.std()` default, `ddof = 1`), not the `√3333.25 ≈ 57.73` of the claim, so
row 0 of the normalized output, `(0 - 99.5)/(1e-7 + √3350) ≈ -1.71910`, is
NOT within the claimed `1e-3` tolerance of `-1.723`. -/
theorem c8_scenario_counterexample :
    mean scenarioX = 199 / 2 ∧ varSamp scenarioX = 3350 ∧
    |((0 : ℝ) - (mean scenarioX : ℝ)) /
        (1e-7 + Real.sqrt ((varSamp scenarioX : ℚ) : ℝ)) - (-1.723)| > 1e-3 := by
  refine ⟨mean_scenarioX, varSamp_scenarioX, ?_⟩
  rw [mean_scenarioX, varSamp_scenarioX]
  have hc : (((3350 : ℚ)) : ℝ) = 3350 := by norm_num
  have hm : (((199 / 2 : ℚ)) : ℝ) = 99.5 := by norm_num
  rw [hc, hm]
  have hs0 : 0 ≤ Real.sqrt 3350 := Real.sqrt_nonneg _
  have hs2 : Real.sqrt 3350 ^ 2 = 3350 := Real.sq_sqrt (by norm_num)
  set s := Real.sqrt 3350 with hsdef
  have hlb : (57.879 : ℝ) < s := by nlinarith [sq_nonneg (s - 57.879), sq_nonneg (s + 57.879)]
  have hdpos : (0 : ℝ) < 1e-7 + s := by
    have : (0 : ℝ) < 1e-7 := by norm_num
    linarith
  have hx : (99.5 : ℝ) / (1e-7 + s) < 1.722 := by
    rw [div_lt_iff₀ hdpos]
    nlinarith
  have key : ((0 : ℝ) - 99.5) / (1e-7 + s) - (-1.723) = 1.723 - 99.5 / (1e-7 + s) := by
    ring
  rw [key, abs_of_pos (by linarith)]
  linarith

/-- C8 (amended): on the two-partition scenario the normalize step uses
mean `= 99.5` exactly and the sample std `√3350 ≈ 57.879` (`ddof = 1`, the
`.std()` default), and row 0 of the output is `≈ -1.7191` within `1e-3`
tolerance; the spec's population-variance numbers would instead give
`varPop = 3333.25`. -/
theorem c8_scenario_sample_std :
    mean scenarioX = 199 / 2 ∧ varSamp scenarioX = 3350 ∧ varPop scenarioX = 13333 / 4 ∧
    |Real.sqrt ((varSamp scenarioX : ℚ) : ℝ) - 57.879| ≤ 1e-2 ∧
    |((0 : ℝ) - (mean scenarioX : ℝ)) /
        (1e-7 + Real.sqrt ((varSamp scenarioX : ℚ) : ℝ)) - (-1.7191)| ≤ 1e-3 := by
  refine ⟨mean_scenarioX, varSamp_scenarioX, varPop_scenarioX, ?_, ?_⟩
  · rw [varSamp_scenarioX, show (((3350 : ℚ)) : ℝ) = 3350 by norm_num]
    have hs0 : 0 ≤ Real.sqrt 3350 := Real.sqrt_nonneg _
    have hs2 : Real.sqrt 3350 ^ 2 = 3350 := Real.sq_sqrt (by norm_num)
    set s := Real.sqrt 3350 with hsdef
    have hlb : (57.879 : ℝ) < s := by nlinarith [sq_nonneg (s - 57.879), sq_nonneg (s + 57.879)]
    have hub : s < (57.88 : ℝ) := by nlinarith [sq_nonneg (s - 57.88), sq_nonneg (s + 57.88)]
    rw [abs_le]
    constructor <;> linarith
  · rw [mean_scenarioX, varSamp_scenarioX, show (((3350 : ℚ)) : ℝ) = 3350 by norm_num,
      show (((199 / 2 : ℚ)) : ℝ) = 99.5 by norm_num]
    have hs0 : 0 ≤ Real.sqrt 3350 := Real.sqrt_nonneg _
    have hs2 : Real.sqrt 3350 ^ 2 = 3350 := Real.sq_sqrt (by norm_num)
    set s := Real.sqrt 3350 with hsdef
    have hlb : (57.879 : ℝ) < s := by nlinarith [sq_nonneg (s - 57.879), sq_nonneg (s + 57.879)]
    have hub : s < (57.88 : ℝ) := by nlinarith [sq_nonneg (s - 57.88), sq_nonneg (s + 57.88)]
    have hdpos : (0 : ℝ) < 1e-7 + s := by
      have : (0 : ℝ) < 1e-7 := by norm_num
      linarith
    have hxu : (99.5 : ℝ) / (1e-7 + s) < 1.71911 := by
      rw [div_lt_iff₀ hdpos]
      nlinarith
    have hxl : (1.71903 : ℝ) < 99.5 / (1e-7 + s) := by
      rw [lt_div_iff₀ hdpos]
      nlinarith
    have key : ((0 : ℝ) - 99.5) / (1e-7 + s) - (-1.7191) = 1.7191 - 99.5 / (1e-7 + s) := by
      ring
    rw [key, abs_le]
    constructor <;> linarith

end NB
